import Mathlib

/-!
Verification development for the pic-auto image-metadata client.

The definitions below are a shallow embedding of the client page
(`src/unnamed/part_000`) and of the Gemini route's result sanitizer
(`src/unnamed/part_003`).  JavaScript strings become `String`, JS numbers
holding file sizes and timestamps become `Nat`/`Int`, a JS `Map` becomes an
insertion-ordered association list with the same `set`/`get` semantics, and
the external HTTP collaborators (the Gemini route and the IPTC writer) are
parameters describing the response the code under analysis receives.
DOM/React side effects (object URLs, rendering, the transient `loading`
status that is always overwritten before an operation returns) are outside
the embedding; each handler is modelled as the state transformation it
performs on the entry store and the two aggregate statuses.
-/

/-- `StatusState` from part_000 lines 7-10: `idle` always carries the empty
message, the other variants carry a message string. -/
inductive StatusState where
  | idle : StatusState
  | loading : String → StatusState
  | success : String → StatusState
  | error : String → StatusState
deriving DecidableEq

/-- part_000 line 12. -/
def initialStatus : StatusState := .idle

/-- `status.type === "success"` as checked by the UI (part_000 line 483). -/
def StatusState.isSuccess : StatusState → Bool
  | .success _ => true
  | _ => false

/-- `status.type === "error"` as checked by the UI (part_000 line 482). -/
def StatusState.isError : StatusState → Bool
  | .error _ => true
  | _ => false

/-- The data of a browser `File` object that part_000 reads: declared name,
size, modification time and declared MIME type (`file.type`, empty when the
browser reports none). -/
structure FileMeta where
  name : String
  size : Nat
  lastModified : Int
  mimeType : String
deriving DecidableEq

/-- JS `String.prototype.trim`, written structurally over the character
list (whitespace per `Char.isWhitespace`). -/
def jsTrim (s : String) : String :=
  String.mk (((s.data.dropWhile Char.isWhitespace).reverse.dropWhile Char.isWhitespace).reverse)

/-- JS `String.prototype.toLowerCase`, structurally over the character
list. -/
def jsToLower (s : String) : String := String.mk (s.data.map Char.toLower)

/-- Helper for `jsSplit`: `acc` holds the current segment reversed. -/
def jsSplitAux (p : Char → Bool) : List Char → List Char → List String
  | [], acc => [String.mk acc.reverse]
  | c :: rest, acc =>
    if p c then String.mk acc.reverse :: jsSplitAux p rest []
    else jsSplitAux p rest (c :: acc)

/-- JS `String.prototype.split` on a single-character class: empty
segments are kept, the empty string yields `[""]`. -/
def jsSplit (p : Char → Bool) (s : String) : List String := jsSplitAux p s.data []

/-- JS `Array.prototype.join` with a separator string. -/
def joinSep (sep : String) : List String → String
  | [] => ""
  | [a] => a
  | a :: rest => a ++ sep ++ joinSep sep rest

/-- part_000 lines 14-19. -/
def SUPPORTED_MIME_TYPES : List String :=
  ["image/jpeg", "image/png", "image/webp", "image/x-webp"]

/-- part_000 line 20. -/
def SUPPORTED_EXTENSIONS : List String := ["jpg", "jpeg", "png", "webp"]

/-- part_000 line 21. -/
def MAX_GEMINI_FILES : Nat := 50

/-- part_000 lines 23-32 (the `file` argument is never null at the call
sites modelled here, so the null guard is vacuous). -/
def isSupportedFile (f : FileMeta) : Bool :=
  let type := jsToLower f.mimeType
  if type != "" && SUPPORTED_MIME_TYPES.contains type then true
  else
    let parts := jsSplit (· == '.') (jsToLower f.name)
    let ext := if parts.length > 1 then parts.getLastD "" else ""
    ext != "" && SUPPORTED_EXTENSIONS.contains ext

/-- part_000 lines 41-44: strip the final `.<ext>` (one or more characters
none of which is `.` or `/`, i.e. the regex `\.[^/.]+$`) from the declared
name, fall back to `"image"` for an empty base, and append `-iptc.jpg`. -/
def getDownloadName (f : FileMeta) : String :=
  let rev := f.name.data.reverse
  let run := rev.takeWhile (fun c => c != '.' && c != '/')
  let base :=
    match rev.drop run.length with
    | '.' :: more => if run.isEmpty then f.name else String.mk more.reverse
    | _ => f.name
  (if base = "" then "image" else base) ++ "-iptc.jpg"

/-- part_000 lines 46-49. -/
def getFileSignature (f : FileMeta) : String :=
  let name := if f.name = "" then "image" else f.name
  name ++ "-" ++ toString f.size ++ "-" ++ toString f.lastModified

/-- `FileEntry` from part_000 lines 62-70.  `previewUrl` is an opaque
object-URL handle; the embedding stores a placeholder because no claim
observes it. -/
structure FileEntry where
  id : String
  file : FileMeta
  previewUrl : String
  signature : String
  title : String
  tags : String
  writeStatus : StatusState
deriving DecidableEq

/-- A JSON `tags` field as it reaches the client or the route: an array
(whose elements may or may not be strings — `none` models a non-string
element), a plain string, or anything else (`missing`). -/
inductive TagsField where
  | missing : TagsField
  | arr : List (Option String) → TagsField
  | str : String → TagsField
deriving DecidableEq

/-- `GeminiApiResult` from part_000 lines 72-76; each field is `none` when
absent or not a string. -/
structure GeminiApiResult where
  id : Option String
  title : Option String
  tags : TagsField
deriving DecidableEq

/-- `GeminiApiResponse` from part_000 lines 78-81.  `results` is `some`
exactly when the field is an array; its elements may be null
(`Option GeminiApiResult`). -/
structure GeminiApiResponse where
  results : Option (List (Option GeminiApiResult))
  error : Option String
deriving DecidableEq

/-- What the `fetch` of `/api/gemini/generate` in part_000 lines 246-256
yields to the surrounding code: a thrown network error, or a response with
an `ok` flag and a body (`none` when `response.json()` failed). -/
inductive FetchOutcome where
  | netError : FetchOutcome
  | response : Bool → Option GeminiApiResponse → FetchOutcome
deriving DecidableEq

/-- What one `fetch` of `/api/iptc/write` in part_000 lines 352-370 yields:
a 2xx with the result blob (modelled as a `String` payload), a non-2xx whose
body optionally carries a string `error` field, or a thrown exception whose
`message` is `some` when the thrown value is an `Error` with a string
message. -/
inductive WriteReply where
  | ok : String → WriteReply
  | httpError : Option String → WriteReply
  | thrown : Option String → WriteReply

/-- Whether the write call succeeds (part_000 lines 357-368: every non-ok
response and every exception end in the failure path). -/
def WriteReply.isOk : WriteReply → Bool
  | .ok _ => true
  | _ => false

/-- The blob of a successful reply, defaulted for failed ones. -/
def WriteReply.blobD : WriteReply → String
  | .ok b => b
  | _ => ""

/-- The mutable state of the `Home` component (part_000 lines 92-94):
the entry store and the two aggregate statuses.  `nextId` is the supply of
fresh client ids: `createClientId` (lines 34-39) returns a fresh UUID, which
the embedding models as a counter rendered to a string. -/
structure AppState where
  fileEntries : List FileEntry
  aiStatus : StatusState
  bulkStatus : StatusState
  nextId : Nat
deriving DecidableEq

/-- The component's state on mount: empty store, both statuses idle. -/
def initialState : AppState :=
  { fileEntries := [], aiStatus := initialStatus, bulkStatus := initialStatus, nextId := 0 }

/-- part_000 line 118. -/
def formatRejectMsg : String := "JPEG / PNG / WebP 形式のみ対応しています。"

/-- part_000 lines 124 and 159. -/
def capacityMsg : String :=
  "これ以上追加できません（最大 " ++ toString MAX_GEMINI_FILES ++ " 枚）。"

/-- part_000 line 157. -/
def duplicateMsg : String := "すでに追加されている画像です。"

/-- part_000 line 167. -/
def someSkippedMsg : String :=
  "一部の画像はスキップされました。現在の上限は " ++ toString MAX_GEMINI_FILES ++ " 枚です。"

/-- The admission loop of `handleFileChange` (part_000 lines 133-153):
walk the supported files, break once no slot is left, skip files whose
signature is already known, otherwise build the new entry and record its
signature.  Returns the admitted entries, the skipped-duplicate count and
the advanced fresh-id counter. -/
def acceptFiles (sigs : List String) (slots : Nat) (ctr : Nat) :
    List FileMeta → List FileEntry × Nat × Nat
  | [] => ([], 0, ctr)
  | f :: rest =>
    if slots = 0 then ([], 0, ctr)
    else
      let sig := getFileSignature f
      if sigs.contains sig then
        let r := acceptFiles sigs slots ctr rest
        (r.1, r.2.1 + 1, r.2.2)
      else
        let e : FileEntry :=
          { id := toString ctr, file := f, previewUrl := "", signature := sig,
            title := "", tags := "", writeStatus := initialStatus }
        let r := acceptFiles (sig :: sigs) (slots - 1) (ctr + 1) rest
        (e :: r.1, r.2.1, r.2.2)

/-- `handleFileChange` (part_000 lines 110-175) as a state transformation:
format filtering and its status message, the full-store guard, the
dedup/capacity admission loop, the three no-admission / partial-admission /
clean-admission status outcomes, appending the admitted entries and
resetting the bulk status. -/
def handleFileChange (s : AppState) (files : List FileMeta) : AppState :=
  if files.length = 0 then s
  else
    let supported := files.filter isSupportedFile
    let s1 :=
      if supported.length ≠ files.length then { s with aiStatus := .error formatRejectMsg }
      else { s with aiStatus := initialStatus }
    if MAX_GEMINI_FILES ≤ s1.fileEntries.length then
      { s1 with aiStatus := .error capacityMsg }
    else
      let r := acceptFiles (s1.fileEntries.map FileEntry.signature)
        (MAX_GEMINI_FILES - s1.fileEntries.length) s1.nextId supported
      if r.1.length = 0 then
        if 0 < r.2.1 then { s1 with aiStatus := .error duplicateMsg }
        else { s1 with aiStatus := .error capacityMsg }
      else
        let s2 :=
          if 0 < r.2.1 ∨ r.1.length < supported.length then
            { s1 with aiStatus := .error someSkippedMsg }
          else { s1 with aiStatus := initialStatus }
        { s2 with fileEntries := s2.fileEntries ++ r.1,
                  bulkStatus := initialStatus, nextId := r.2.2 }

/-- `updateEntry` (part_000 lines 177-179): apply `updater` to every entry
whose id matches. -/
def updateEntry (s : AppState) (entryId : String) (updater : FileEntry → FileEntry) : AppState :=
  { s with fileEntries := s.fileEntries.map (fun e => if e.id == entryId then updater e else e) }

/-- `handleTitleChange` (part_000 lines 181-183). -/
def handleTitleChange (s : AppState) (entryId : String) (value : String) : AppState :=
  updateEntry s entryId (fun e => { e with title := value, writeStatus := initialStatus })

/-- `handleTagsChange` (part_000 lines 185-187). -/
def handleTagsChange (s : AppState) (entryId : String) (value : String) : AppState :=
  updateEntry s entryId (fun e => { e with tags := value, writeStatus := initialStatus })

/-- `handleRemoveEntry` (part_000 lines 189-219): `"__all__"` clears the
store and both statuses; otherwise remove the matching entry and reset both
statuses when the store becomes empty. -/
def handleRemoveEntry (s : AppState) (entryId : String) : AppState :=
  if entryId = "__all__" then
    { s with fileEntries := [], aiStatus := initialStatus, bulkStatus := initialStatus }
  else
    match s.fileEntries.find? (fun e => e.id == entryId) with
    | none => s
    | some _ =>
      let next := s.fileEntries.filter (fun e => e.id != entryId)
      if next.length = 0 then
        { s with fileEntries := next, aiStatus := initialStatus, bulkStatus := initialStatus }
      else { s with fileEntries := next }

/-- `Map.set` on an insertion-ordered string-keyed map (part_000 line 276):
replace in place when the key exists, otherwise append. -/
def mapSet (m : List (String × GeminiApiResult)) (k : String) (v : GeminiApiResult) :
    List (String × GeminiApiResult) :=
  if m.any (fun p => p.1 == k) then m.map (fun p => if p.1 == k then (k, v) else p)
  else m ++ [(k, v)]

/-- `Map.get` (first — and by construction only — binding of the key). -/
def mapGet (m : List (String × GeminiApiResult)) (k : String) : Option GeminiApiResult :=
  (m.find? (fun p => p.1 == k)).map Prod.snd

/-- Building `resultMap` (part_000 lines 273-278): keep items that are
objects with a string `id`, later bindings overwriting earlier ones. -/
def buildResultMap (results : List (Option GeminiApiResult)) : List (String × GeminiApiResult) :=
  results.foldl
    (fun m item =>
      match item with
      | some it =>
        match it.id with
        | some i => mapSet m i it
        | none => m
      | none => m)
    []

/-- The tag sanitization the client applies to an array-form `tags` field
(part_000 lines 295-297): non-strings become empty, each tag is trimmed,
empties are dropped. -/
def sanitizedClientTags (ts : List (Option String)) : List String :=
  (ts.map (fun t => match t with | some s => jsTrim s | none => "")).filter
    (fun t => 0 < t.length)

/-- The per-entry merge of part_000 lines 287-313: entries with no matching
result are returned as-is; for a match, array tags are sanitized and joined
with `", "` when anything survives, string tags replace the field verbatim
when their trim is non-empty, the title is replaced by its trim when that is
non-empty, and the write status is reset. -/
def mergeEntry (rmap : List (String × GeminiApiResult)) (e : FileEntry) : FileEntry :=
  match mapGet rmap e.id with
  | none => e
  | some m =>
    let nextTags :=
      match m.tags with
      | .arr ts =>
        let sanitized := sanitizedClientTags ts
        if 0 < sanitized.length then joinSep ", " sanitized else e.tags
      | .str s => if 0 < (jsTrim s).length then s else e.tags
      | .missing => e.tags
    let nextTitle :=
      match m.title with
      | some t => if 0 < (jsTrim t).length then jsTrim t else e.title
      | none => e.title
    { e with title := nextTitle, tags := nextTags, writeStatus := initialStatus }

/-- part_000 line 223. -/
def selectFirstMsg : String := "先に画像を選択してください。"

/-- part_000 line 230. -/
def overBatchLimitMsg : String :=
  "Gemini 解析に投げられるのは最大 " ++ toString MAX_GEMINI_FILES ++ " 枚です。"

/-- part_000 line 262. -/
def genFailMsg : String := "タイトルとタグの生成に失敗しました。"

/-- part_000 line 269. -/
def noResultsMsg : String := "生成結果を取得できませんでした。"

/-- part_000 line 281. -/
def badFormatMsg : String := "生成結果の形式が不正です。"

/-- part_000 line 320. -/
def missingSomeMsg (n : Nat) : String :=
  "一部の画像で結果を取得できませんでした (未取得 " ++ toString n ++ " 件)。"

/-- part_000 line 325. -/
def aiSuccessMsg : String := "タイトルとタグを取得しました。必要に応じて編集してください。"

/-- part_000 line 330. -/
def requestFailMsg : String := "Gemini へのリクエストに失敗しました。"

/-- `handleAskAI` after its two local validations (part_000 lines 235-331):
error statuses for a thrown fetch, a non-ok response, a missing/empty result
array or a map with no usable id; otherwise merge every entry through
`mergeEntry` and report either the missing-count error message or the
success message. -/
def askAIProceed (s : AppState) (o : FetchOutcome) : AppState :=
  match o with
  | .netError => { s with aiStatus := .error requestFailMsg }
  | .response ok body =>
    if ok = false then
      let msg :=
        match body with
        | some b =>
          match b.error with
          | some e => if 0 < e.length then e else genFailMsg
          | none => genFailMsg
        | none => genFailMsg
      { s with aiStatus := .error msg }
    else
      let results :=
        match body with
        | some b => b.results.getD []
        | none => []
      if results.length = 0 then { s with aiStatus := .error noResultsMsg }
      else
        let rmap := buildResultMap results
        if rmap.length = 0 then { s with aiStatus := .error badFormatMsg }
        else
          let missing := (s.fileEntries.filter (fun e => (mapGet rmap e.id).isNone)).length
          { s with
            fileEntries := s.fileEntries.map (mergeEntry rmap),
            aiStatus :=
              if 0 < missing then .error (missingSomeMsg missing) else .success aiSuccessMsg }

/-- `handleAskAI` (part_000 lines 221-332): the empty-store and
over-batch-limit validations, then the request/merge flow of
`askAIProceed`. -/
def handleAskAI (s : AppState) (o : FetchOutcome) : AppState :=
  if s.fileEntries.length = 0 then { s with aiStatus := .error selectFirstMsg }
  else if MAX_GEMINI_FILES < s.fileEntries.length then
    { s with aiStatus := .error overBatchLimitMsg }
  else askAIProceed s o

/-- part_000 line 343. -/
def writingMsg : String := "メタデータを書き込み中…"

/-- part_000 line 358. -/
def writeHttpFailMsg : String := "メタデータの書き込みに失敗しました。"

/-- part_000 line 389. -/
def unexpectedErrMsg : String := "予期しないエラーが発生しました。"

/-- part_000 line 381. -/
def zipAddedMsg : String := "書き込み済み (ZIP に追加)"

/-- part_000 line 381. -/
def writeDoneMsg : String := "書き込みが完了しました。"

/-- `handleWriteMetadata` (part_000 lines 334-397): look the entry up by
id, mark it loading, and depending on the writer's reply either mark it
success and return the blob with its computed download name, or mark it
error with the best available message and return failure.  `oracle` gives
the writer's reply for the entry id being written. -/
def handleWriteMetadata (s : AppState) (entryId : String) (oracle : String → WriteReply)
    (skipDownload : Bool) : AppState × Option (String × String) :=
  match s.fileEntries.find? (fun e => e.id == entryId) with
  | none => (s, none)
  | some entry =>
    let s1 := updateEntry s entryId (fun c => { c with writeStatus := .loading writingMsg })
    match oracle entryId with
    | .ok blob =>
      let msg := if skipDownload then zipAddedMsg else writeDoneMsg
      (updateEntry s1 entryId (fun c => { c with writeStatus := StatusState.success msg }),
       some (getDownloadName entry.file, blob))
    | .httpError m =>
      (updateEntry s1 entryId
        (fun c => { c with writeStatus := StatusState.error (m.getD writeHttpFailMsg) }), none)
    | .thrown m =>
      (updateEntry s1 entryId
        (fun c => { c with writeStatus := StatusState.error (m.getD unexpectedErrMsg) }), none)

/-- part_000 line 405. -/
def bulkLoadingMsg : String := "順番に書き込み中…"

/-- part_000 line 418. -/
def allFailedMsg : String := "書き込みに失敗しました。各画像のステータスをご確認ください。"

/-- part_000 line 427. -/
def allZippedMsg (n : Nat) : String :=
  toString n ++ " 件すべて ZIP にまとめてダウンロードしました。"

/-- part_000 line 431. -/
def someFailedMsg (n : Nat) : String :=
  toString n ++ " 件でエラーが発生しました。成功したファイルのみ ZIP に含まれています。"

/-- JSZip's `zip.file(name, data)` as called at part_000 line 413: the ZIP
container is keyed by entry name, so adding an artifact under a name that is
already present replaces the stored artifact (keeping its position), while a
fresh name is appended. -/
def zipFile (z : List (String × String)) (name blob : String) : List (String × String) :=
  if z.any (fun p => p.1 == name) then
    z.map (fun p => if p.1 == name then (name, blob) else p)
  else z ++ [(name, blob)]

/-- Driving `zipFile` over a sequence of named artifacts in order. -/
def zipAddAll (z : List (String × String)) : List (String × String) → List (String × String)
  | [] => z
  | p :: rest => zipAddAll (zipFile z p.1 p.2) rest

/-- The `for` loop of `handleWriteAll` (part_000 lines 409-415): write each
entry in order with downloads suppressed, adding each successful artifact to
the ZIP container under its download name (`zip.file`, add-or-replace) and
counting successes. -/
def writeAllLoop (oracle : String → WriteReply) :
    AppState → List (String × String) → List FileEntry →
      AppState × List (String × String) × Nat
  | st, zip, [] => (st, zip, 0)
  | st, zip, e :: rest =>
    match handleWriteMetadata st e.id oracle true with
    | (st1, some file) =>
      let r := writeAllLoop oracle st1 (zipFile zip file.1 file.2) rest
      (r.1, r.2.1, r.2.2 + 1)
    | (st1, none) => writeAllLoop oracle st1 zip rest

/-- `handleWriteAll` (part_000 lines 399-434): validate non-emptiness,
run the sequential pass over a fresh ZIP container, and either report total
failure with no archive, or produce the archive with the all-success or
partial-failure bulk status.  The second component is the archive, `none`
when no archive is generated. -/
def handleWriteAll (s : AppState) (oracle : String → WriteReply) :
    AppState × Option (List (String × String)) :=
  if s.fileEntries.length = 0 then
    ({ s with bulkStatus := .error selectFirstMsg }, none)
  else
    let r := writeAllLoop oracle { s with bulkStatus := .loading bulkLoadingMsg } []
      s.fileEntries
    if r.2.2 = 0 then
      ({ r.1 with bulkStatus := .error allFailedMsg }, none)
    else if r.2.2 = s.fileEntries.length then
      ({ r.1 with bulkStatus := .success (allZippedMsg r.2.2) }, some r.2.1)
    else
      ({ r.1 with bulkStatus := .error (someFailedMsg (s.fileEntries.length - r.2.2)) },
       some r.2.1)

/-- part_003 line 11. -/
def MAX_TAGS : Nat := 15

/-- The character class `[\n,]` of part_003 line 132. -/
def isTagSep (c : Char) : Bool := c == '\n' || c == ','

/-- A raw result object as the route parses it (part_003 lines 109-123):
fields are `none` when absent or not of the checked runtime type. -/
structure RawResult where
  id : Option String
  title : Option String
  tags : TagsField
deriving DecidableEq

/-- The route's sanitized per-image result (part_003 line 97). -/
structure GeminiResult where
  id : String
  title : String
  tags : List String
deriving DecidableEq

/-- The loop body of `sanitizeResults` (part_003 lines 109-144): drop items
without a non-empty trimmed string id and title; sanitize array tags
(trim strings, blank non-strings, drop empties) or split string tags on
`[\n,]` (trim, drop empties); cap at `MAX_TAGS`; drop the item when no tag
survives. -/
def sanitizeItem (item : RawResult) : Option GeminiResult :=
  let id := match item.id with | some s => jsTrim s | none => ""
  let title := match item.title with | some s => jsTrim s | none => ""
  if id == "" || title == "" then none
  else
    let tags : List String :=
      match item.tags with
      | .arr ts =>
        (ts.map (fun t => match t with | some s => jsTrim s | none => "")).filter
          (fun t => 0 < t.length)
      | .str s => ((jsSplit isTagSep s).map jsTrim).filter (fun t => 0 < t.length)
      | .missing => []
    let tags := tags.take MAX_TAGS
    if tags.isEmpty then none else some { id := id, title := title, tags := tags }

/-- `sanitizeResults` (part_003 lines 99-147) on the extracted candidate
list (`container.results` when it is an array, part_003 lines 100-105):
non-object candidates are skipped, the rest go through `sanitizeItem`. -/
def sanitizeResults (list : List (Option RawResult)) : List GeminiResult :=
  list.filterMap (fun c => c.bind sanitizeItem)

/-- The arrival-form tag list of a `tags` field: the array itself
(non-string elements as empty strings) or the `[\n,]`-split of the string
form. -/
def rawTagList : TagsField → List String
  | .arr ts => ts.map (fun t => t.getD "")
  | .str s => jsSplit isTagSep s
  | .missing => []

/-- The normalization stated by the spec, written from its words: each tag
trimmed, empty tags dropped, the list capped at the fixed maximum tag
count. -/
def specNormalizeTags (raw : List String) : List String :=
  ((raw.map jsTrim).filter (fun t => 0 < t.length)).take MAX_TAGS

/-- One user/network-visible operation on the component state.  The
`askAI`, `writeOne` and `writeAll` operations carry the collaborator's
reply, since the state transition depends on it. -/
inductive AppOp where
  | select : List FileMeta → AppOp
  | editTitle : String → String → AppOp
  | editTags : String → String → AppOp
  | remove : String → AppOp
  | askAI : FetchOutcome → AppOp
  | writeOne : String → (String → WriteReply) → AppOp
  | writeAll : (String → WriteReply) → AppOp

/-- The state transition of one operation. -/
def step (s : AppState) : AppOp → AppState
  | .select files => handleFileChange s files
  | .editTitle id v => handleTitleChange s id v
  | .editTags id v => handleTagsChange s id v
  | .remove id => handleRemoveEntry s id
  | .askAI o => handleAskAI s o
  | .writeOne id oracle => (handleWriteMetadata s id oracle false).1
  | .writeAll oracle => (handleWriteAll s oracle).1

/-- Run a sequence of operations from the freshly mounted component. -/
def runOps (ops : List AppOp) : AppState := ops.foldl step initialState

/-- An entry with its write status forgotten: two entries with the same
`eraseStatus` agree on id, file, preview, signature, title and tags. -/
def eraseStatus (e : FileEntry) : FileEntry := { e with writeStatus := initialStatus }

/-- A selection of `MAX_GEMINI_FILES + 1` supported, pairwise distinct files
(same name, distinct sizes, hence distinct signatures). -/
def overflowFiles : List FileMeta :=
  (List.range (MAX_GEMINI_FILES + 1)).map (fun i => ⟨"photo.jpg", i, 0, "image/jpeg"⟩)

/-- A run that selects a single supported file. -/
def sampleOps : List AppOp := [AppOp.select [⟨"a.jpg", 1, 0, "image/jpeg"⟩]]

/-- A stored entry with id `"a"` and no annotations yet. -/
def entryA : FileEntry :=
  { id := "a", file := ⟨"a.jpg", 1, 0, "image/jpeg"⟩, previewUrl := "",
    signature := "a.jpg-1-0", title := "", tags := "", writeStatus := initialStatus }

/-- A stored entry with id `"b"` whose last write succeeded. -/
def entryBdone : FileEntry :=
  { id := "b", file := ⟨"b.jpg", 2, 0, "image/jpeg"⟩, previewUrl := "",
    signature := "b.jpg-2-0", title := "t0", tags := "g0",
    writeStatus := StatusState.success "done" }

/-- An annotation result addressed to the entry with id `"a"`. -/
def resultForA : GeminiApiResult :=
  { id := some "a", title := some "T", tags := .arr [some "x"] }

/-- A response body whose result list covers only id `"a"`. -/
def missBody : GeminiApiResponse := { results := some [some resultForA], error := none }

/-- A 2xx annotation response carrying `missBody`. -/
def missOutcome : FetchOutcome := .response true (some missBody)

/-- A two-entry store about to receive an annotation response that covers
only its first entry. -/
def sMiss : AppState :=
  { fileEntries := [entryA, entryBdone], aiStatus := initialStatus,
    bulkStatus := initialStatus, nextId := 2 }

/-- An entry that already carries a user-written title and tags. -/
def entryOld : FileEntry :=
  { id := "a", file := ⟨"a.jpg", 1, 0, "image/jpeg"⟩, previewUrl := "",
    signature := "a.jpg-1-0", title := "old", tags := "oldtags", writeStatus := initialStatus }

/-- An annotation result whose string-form tags consist only of commas:
its trim is non-empty but normalization yields no tag. -/
def strTagResult : GeminiApiResult :=
  { id := some "a", title := some " T ", tags := .str ",," }

/-- A raw route result whose tags arrive as a single delimited string. -/
def strFormRaw : RawResult :=
  { id := some "i", title := some "t", tags := .str " a ,, b " }

/-- An annotation result whose tags arrive as an array with one non-string
element. -/
def arrTagResult : GeminiApiResult :=
  { id := some "a", title := none, tags := .arr [some " x ", none, some "y"] }

/-- An entry with empty title and tags. -/
def entryPlain : FileEntry :=
  { id := "a", file := ⟨"a.jpg", 1, 0, "image/jpeg"⟩, previewUrl := "",
    signature := "a.jpg-1-0", title := "", tags := "", writeStatus := initialStatus }

/-- First entry of the batch-write scenario; its write will succeed. -/
def entryX : FileEntry :=
  { id := "a", file := ⟨"x.jpg", 1, 0, "image/jpeg"⟩, previewUrl := "",
    signature := "x.jpg-1-0", title := "t", tags := "g", writeStatus := initialStatus }

/-- Second entry of the batch-write scenario; its write will fail. -/
def entryY : FileEntry :=
  { id := "b", file := ⟨"y.png", 2, 0, "image/png"⟩, previewUrl := "",
    signature := "y.png-2-0", title := "", tags := "", writeStatus := initialStatus }

/-- A two-entry store for the batch-write scenario. -/
def sBatch : AppState :=
  { fileEntries := [entryX, entryY], aiStatus := initialStatus,
    bulkStatus := initialStatus, nextId := 2 }

/-- Writer replies for the batch scenario: id `"a"` succeeds, everything
else gets a 500 with a structured error message. -/
def batchOracle : String → WriteReply :=
  fun id => if id = "a" then .ok "BLOB" else .httpError (some "disk full")

/-- First entry of the name-collision scenario: file `a.jpg` of size 1
(download name `a-iptc.jpg`). -/
def entryN1 : FileEntry :=
  { id := "a", file := ⟨"a.jpg", 1, 0, "image/jpeg"⟩, previewUrl := "",
    signature := "a.jpg-1-0", title := "", tags := "", writeStatus := initialStatus }

/-- Second entry of the name-collision scenario: a distinct file (same name
`a.jpg`, size 2, hence a distinct signature) with the same computed download
name `a-iptc.jpg`. -/
def entryN2 : FileEntry :=
  { id := "b", file := ⟨"a.jpg", 2, 0, "image/jpeg"⟩, previewUrl := "",
    signature := "a.jpg-2-0", title := "", tags := "", writeStatus := initialStatus }

/-- Third entry of the name-collision scenario; its write will fail. -/
def entryN3 : FileEntry :=
  { id := "c", file := ⟨"c.jpg", 3, 0, "image/jpeg"⟩, previewUrl := "",
    signature := "c.jpg-3-0", title := "", tags := "", writeStatus := initialStatus }

/-- A three-entry store whose first two entries share a download name. -/
def sCollide : AppState :=
  { fileEntries := [entryN1, entryN2, entryN3], aiStatus := initialStatus,
    bulkStatus := initialStatus, nextId := 3 }

/-- Writer replies for the collision scenario: ids `"a"` and `"b"` succeed
with distinct blobs, id `"c"` fails. -/
def collideOracle : String → WriteReply :=
  fun id =>
    if id = "a" then .ok "B1"
    else if id = "b" then .ok "B2"
    else .httpError (some "disk full")

/-- The successful artifacts of a batch pass, in store order, each paired
with its computed download name — the sequence of `zip.file` calls the
orchestrator makes. -/
def successArtifacts (s : AppState) (oracle : String → WriteReply) :
    List (String × String) :=
  (s.fileEntries.filter (fun e => (oracle e.id).isOk)).map
    (fun e => (getDownloadName e.file, (oracle e.id).blobD))

theorem acceptFiles_length_le_slots (fs : List FileMeta) :
    ∀ (sigs : List String) (slots ctr : Nat),
      (acceptFiles sigs slots ctr fs).1.length ≤ slots := by
  induction fs with
  | nil => intro sigs slots ctr; simp [acceptFiles]
  | cons f rest ih =>
    intro sigs slots ctr
    simp only [acceptFiles]
    split
    · simp
    · split
      · exact (ih ..).trans (Nat.le_refl _)
      · next h0 _ =>
        simp only [List.length_cons]
        have := ih (getFileSignature f :: sigs) (slots - 1) (ctr + 1)
        omega

theorem acceptFiles_length_le_input (fs : List FileMeta) :
    ∀ (sigs : List String) (slots ctr : Nat),
      (acceptFiles sigs slots ctr fs).1.length ≤ fs.length := by
  induction fs with
  | nil => intro sigs slots ctr; simp [acceptFiles]
  | cons f rest ih =>
    intro sigs slots ctr
    simp only [acceptFiles]
    split
    · simp
    · split
      · exact (ih ..).trans (Nat.le_succ _)
      · simp only [List.length_cons]
        exact Nat.succ_le_succ (ih ..)

theorem acceptFiles_sigs (fs : List FileMeta) :
    ∀ (sigs : List String) (slots ctr : Nat),
      ((acceptFiles sigs slots ctr fs).1.map FileEntry.signature).Nodup ∧
      ∀ e ∈ (acceptFiles sigs slots ctr fs).1, e.signature ∉ sigs := by
  induction fs with
  | nil => intro sigs slots ctr; simp [acceptFiles]
  | cons f rest ih =>
    intro sigs slots ctr
    simp only [acceptFiles]
    split
    · simp
    · split
      · exact ih ..
      · next h0 hc =>
        obtain ⟨hnd, hni⟩ := ih (getFileSignature f :: sigs) (slots - 1) (ctr + 1)
        have hfresh : getFileSignature f ∉ sigs := by
          intro hmem
          exact hc (List.elem_iff.2 hmem)
        constructor
        · simp only [List.map_cons, List.nodup_cons]
          refine ⟨fun hmem => ?_, hnd⟩
          obtain ⟨e, he, heq⟩ := List.mem_map.1 hmem
          have := hni e he
          simp only [List.mem_cons, not_or] at this
          exact this.1 heq
        · intro e he
          rcases List.mem_cons.1 he with rfl | he
          · exact hfresh
          · have := hni e he
            simp only [List.mem_cons, not_or] at this
            exact this.2

theorem handleFileChange_entries_cases (s : AppState) (files : List FileMeta) :
    (handleFileChange s files).fileEntries = s.fileEntries ∨
    ((handleFileChange s files).fileEntries =
        s.fileEntries ++ (acceptFiles (s.fileEntries.map FileEntry.signature)
          (MAX_GEMINI_FILES - s.fileEntries.length) s.nextId
          (files.filter isSupportedFile)).1 ∧
      s.fileEntries.length < MAX_GEMINI_FILES) := by
  by_cases h1 : files.length = 0
  · left; simp [handleFileChange, h1]
  · by_cases h3 : MAX_GEMINI_FILES ≤ s.fileEntries.length
    · left
      simp [handleFileChange, h1, h3, apply_ite AppState.fileEntries]
    · by_cases h4 : (acceptFiles (s.fileEntries.map FileEntry.signature)
          (MAX_GEMINI_FILES - s.fileEntries.length) s.nextId
          (files.filter isSupportedFile)).1.length = 0
      · left
        simp [handleFileChange, h1, h3, h4, apply_ite AppState.fileEntries,
          apply_ite AppState.nextId]
      · right
        constructor
        · simp [handleFileChange, h1, h3, h4, apply_ite AppState.fileEntries,
            apply_ite AppState.nextId]
        · omega

theorem handleFileChange_length_le (s : AppState) (files : List FileMeta) :
    (handleFileChange s files).fileEntries.length ≤
      s.fileEntries.length + min files.length (MAX_GEMINI_FILES - s.fileEntries.length) := by
  rcases handleFileChange_entries_cases s files with h | ⟨h, _⟩
  · rw [h]; omega
  · rw [h]
    simp only [List.length_append]
    have h1 := acceptFiles_length_le_slots (files.filter isSupportedFile)
      (s.fileEntries.map FileEntry.signature) (MAX_GEMINI_FILES - s.fileEntries.length) s.nextId
    have h2 := acceptFiles_length_le_input (files.filter isSupportedFile)
      (s.fileEntries.map FileEntry.signature) (MAX_GEMINI_FILES - s.fileEntries.length) s.nextId
    have h3 : (files.filter isSupportedFile).length ≤ files.length :=
      List.length_filter_le _ _
    omega

theorem handleFileChange_capacity (s : AppState) (files : List FileMeta)
    (h : s.fileEntries.length ≤ MAX_GEMINI_FILES) :
    (handleFileChange s files).fileEntries.length ≤ MAX_GEMINI_FILES := by
  have := handleFileChange_length_le s files
  omega

theorem handleFileChange_sigs_nodup (s : AppState) (files : List FileMeta)
    (h : (s.fileEntries.map FileEntry.signature).Nodup) :
    ((handleFileChange s files).fileEntries.map FileEntry.signature).Nodup := by
  rcases handleFileChange_entries_cases s files with heq | ⟨heq, _⟩
  · rwa [heq]
  · rw [heq, List.map_append]
    obtain ⟨hnd, hni⟩ := acceptFiles_sigs (files.filter isSupportedFile)
      (s.fileEntries.map FileEntry.signature) (MAX_GEMINI_FILES - s.fileEntries.length) s.nextId
    refine List.Nodup.append h hnd ?_
    intro a ha hb
    obtain ⟨e, he, rfl⟩ := List.mem_map.1 hb
    exact acceptFiles_sigs _ _ _ _ |>.2 e he ha

theorem updateEntry_map_eraseStatus (s : AppState) (id0 : String) (f : FileEntry → FileEntry)
    (hf : ∀ e, eraseStatus (f e) = eraseStatus e) :
    (updateEntry s id0 f).fileEntries.map eraseStatus = s.fileEntries.map eraseStatus := by
  simp only [updateEntry, List.map_map]
  refine List.map_congr_left fun a _ => ?_
  by_cases h : a.id = id0 <;> simp [h, hf]

theorem find_coreEq :
    ∀ (base l : List FileEntry),
      l.map eraseStatus = base.map eraseStatus →
      (base.map FileEntry.id).Nodup →
      ∀ e ∈ base,
        ∃ x, l.find? (fun y => y.id == e.id) = some x ∧ eraseStatus x = eraseStatus e := by
  intro base
  induction base with
  | nil => intro l _ _ e he; cases he
  | cons b bs ih =>
    intro l hcore hnd e he
    cases l with
    | nil => simp at hcore
    | cons a l' =>
      simp only [List.map_cons, List.cons.injEq] at hcore
      obtain ⟨hab, htail⟩ := hcore
      have haid : a.id = b.id := by
        have := congrArg FileEntry.id hab
        simpa [eraseStatus] using this
      simp only [List.map_cons, List.nodup_cons] at hnd
      rcases List.mem_cons.1 he with rfl | he'
      · exact ⟨a, by simp [List.find?_cons, haid], hab⟩
      · have hne : ¬(a.id = e.id) := by
          intro hcontra
          exact hnd.1 (by
            rw [← haid, hcontra]
            exact List.mem_map_of_mem FileEntry.id he')
        obtain ⟨x, hfind, hx⟩ := ih l' htail hnd.2 e he'
        have hbeq : (a.id == e.id) = false := by simp [hne]
        refine ⟨x, ?_, hx⟩
        rw [List.find?_cons, hbeq]
        exact hfind

@[simp] theorem WriteReply.isOk_ok (b : String) : (WriteReply.ok b).isOk = true := rfl

@[simp] theorem WriteReply.isOk_httpError (m : Option String) :
    (WriteReply.httpError m).isOk = false := rfl

@[simp] theorem WriteReply.isOk_thrown (m : Option String) :
    (WriteReply.thrown m).isOk = false := rfl

@[simp] theorem WriteReply.blobD_ok (b : String) : (WriteReply.ok b).blobD = b := rfl

theorem updateEntry_status_map_eraseStatus (s : AppState) (id0 : String)
    (g : FileEntry → StatusState) :
    (updateEntry s id0 (fun c => { c with writeStatus := g c })).fileEntries.map eraseStatus =
      s.fileEntries.map eraseStatus := by
  simp only [updateEntry, List.map_map]
  refine List.map_congr_left fun a _ => ?_
  by_cases h : a.id = id0 <;> simp [h, eraseStatus]

theorem handleWriteMetadata_coreEq (base : List FileEntry)
    (hnd : (base.map FileEntry.id).Nodup)
    (st : AppState) (hcore : st.fileEntries.map eraseStatus = base.map eraseStatus)
    (e : FileEntry) (he : e ∈ base) (oracle : String → WriteReply) (skip : Bool) :
    (handleWriteMetadata st e.id oracle skip).1.fileEntries.map eraseStatus =
        base.map eraseStatus ∧
    (handleWriteMetadata st e.id oracle skip).2 =
      (match oracle e.id with
       | .ok b => some (getDownloadName e.file, b)
       | .httpError _ => none
       | .thrown _ => none) := by
  obtain ⟨x, hfind, hx⟩ := find_coreEq base st.fileEntries hcore hnd e he
  have hfile : x.file = e.file := by
    have := congrArg FileEntry.file hx
    simpa [eraseStatus] using this
  simp only [handleWriteMetadata, hfind]
  cases horacle : oracle e.id with
  | ok b =>
    refine ⟨?_, by simp [hfile]⟩
    rw [updateEntry_status_map_eraseStatus, updateEntry_status_map_eraseStatus, hcore]
  | httpError m =>
    refine ⟨?_, rfl⟩
    rw [updateEntry_status_map_eraseStatus, updateEntry_status_map_eraseStatus, hcore]
  | thrown m =>
    refine ⟨?_, rfl⟩
    rw [updateEntry_status_map_eraseStatus, updateEntry_status_map_eraseStatus, hcore]

theorem zipFile_names (z : List (String × String)) (n b : String) :
    (zipFile z n b).map Prod.fst =
      (if n ∈ z.map Prod.fst then z.map Prod.fst else z.map Prod.fst ++ [n]) := by
  unfold zipFile
  by_cases h : n ∈ z.map Prod.fst
  · have hany : z.any (fun p => p.1 == n) = true := by
      obtain ⟨p, hp, hfst⟩ := List.mem_map.1 h
      exact List.any_eq_true.2 ⟨p, hp, by simp [hfst]⟩
    rw [if_pos hany, if_pos h, List.map_map]
    refine List.map_congr_left fun p hp => ?_
    by_cases hq : p.1 = n <;> simp [hq]
  · have hany : z.any (fun p => p.1 == n) = false := by
      rw [List.any_eq_false]
      intro p hp
      simp only [beq_iff_eq]
      intro hq
      exact h (hq ▸ List.mem_map_of_mem Prod.fst hp)
    rw [hany, if_neg h]
    simp

theorem zipFile_names_nodup (z : List (String × String)) (n b : String)
    (h : (z.map Prod.fst).Nodup) : ((zipFile z n b).map Prod.fst).Nodup := by
  rw [zipFile_names]
  by_cases hm : n ∈ z.map Prod.fst
  · rwa [if_pos hm]
  · rw [if_neg hm]
    refine List.Nodup.append h (List.nodup_singleton n) ?_
    intro a ha hb
    rw [List.mem_singleton] at hb
    exact hm (hb ▸ ha)

theorem zipFile_mem_names (z : List (String × String)) (n b m : String) :
    m ∈ (zipFile z n b).map Prod.fst ↔ m ∈ z.map Prod.fst ∨ m = n := by
  rw [zipFile_names]
  by_cases hm : n ∈ z.map Prod.fst
  · rw [if_pos hm]
    constructor
    · exact Or.inl
    · rintro (h | rfl)
      · exact h
      · exact hm
  · rw [if_neg hm]
    simp

theorem zipFile_length_le (z : List (String × String)) (n b : String) :
    (zipFile z n b).length ≤ z.length + 1 := by
  unfold zipFile
  split
  · simp
  · simp

theorem zipFile_fresh (z : List (String × String)) (n b : String)
    (h : n ∉ z.map Prod.fst) : zipFile z n b = z ++ [(n, b)] := by
  unfold zipFile
  have hany : z.any (fun p => p.1 == n) = false := by
    rw [List.any_eq_false]
    intro p hp
    simp only [beq_iff_eq]
    intro hq
    exact h (hq ▸ List.mem_map_of_mem Prod.fst hp)
  rw [hany]
  rfl

theorem zipAddAll_names_nodup (ps : List (String × String)) :
    ∀ (z : List (String × String)), (z.map Prod.fst).Nodup →
      ((zipAddAll z ps).map Prod.fst).Nodup := by
  induction ps with
  | nil => intro z h; exact h
  | cons p rest ih =>
    intro z h
    exact ih (zipFile z p.1 p.2) (zipFile_names_nodup z p.1 p.2 h)

theorem zipAddAll_mem_names (ps : List (String × String)) :
    ∀ (z : List (String × String)) (m : String),
      m ∈ (zipAddAll z ps).map Prod.fst ↔ m ∈ z.map Prod.fst ∨ m ∈ ps.map Prod.fst := by
  induction ps with
  | nil => intro z m; simp [zipAddAll]
  | cons p rest ih =>
    intro z m
    simp only [zipAddAll]
    rw [ih (zipFile z p.1 p.2) m, zipFile_mem_names]
    simp only [List.map_cons, List.mem_cons]
    tauto

theorem zipAddAll_length_le (ps : List (String × String)) :
    ∀ (z : List (String × String)), (zipAddAll z ps).length ≤ z.length + ps.length := by
  induction ps with
  | nil => intro z; simp [zipAddAll]
  | cons p rest ih =>
    intro z
    simp only [zipAddAll, List.length_cons]
    have h1 := ih (zipFile z p.1 p.2)
    have h2 := zipFile_length_le z p.1 p.2
    omega

theorem zipAddAll_of_nodup (ps : List (String × String)) :
    ∀ (z : List (String × String)), (ps.map Prod.fst).Nodup →
      (∀ n ∈ ps.map Prod.fst, n ∉ z.map Prod.fst) → zipAddAll z ps = z ++ ps := by
  induction ps with
  | nil => intro z _ _; simp [zipAddAll]
  | cons p rest ih =>
    intro z hnd hdisj
    simp only [List.map_cons, List.nodup_cons] at hnd
    have hfresh : p.1 ∉ z.map Prod.fst :=
      hdisj p.1 (by simp)
    simp only [zipAddAll]
    rw [zipFile_fresh z p.1 p.2 hfresh]
    rw [ih (z ++ [(p.1, p.2)]) hnd.2 ?_]
    · simp
    · intro n hn
      rw [List.map_append, List.mem_append]
      rintro (h | h)
      · exact hdisj n (by simp [hn]) h
      · simp only [List.map_cons, List.map_nil, List.mem_singleton] at h
        exact hnd.1 (h ▸ hn)

theorem writeAllLoop_spec (oracle : String → WriteReply) (base : List FileEntry)
    (hnd : (base.map FileEntry.id).Nodup) :
    ∀ (todo : List FileEntry) (zip : List (String × String)) (st : AppState),
      st.fileEntries.map eraseStatus = base.map eraseStatus →
      (∀ e ∈ todo, e ∈ base) →
      (writeAllLoop oracle st zip todo).1.fileEntries.map eraseStatus =
        base.map eraseStatus ∧
      (writeAllLoop oracle st zip todo).2.1 =
        zipAddAll zip ((todo.filter (fun e => (oracle e.id).isOk)).map
          (fun e => (getDownloadName e.file, (oracle e.id).blobD))) ∧
      (writeAllLoop oracle st zip todo).2.2 = todo.countP (fun e => (oracle e.id).isOk) := by
  intro todo
  induction todo with
  | nil => intro zip st hcore _; simp [writeAllLoop, zipAddAll, hcore]
  | cons e rest ih =>
    intro zip st hcore hsub
    have he : e ∈ base := hsub e (List.mem_cons_self ..)
    obtain ⟨hcore1, hres⟩ := handleWriteMetadata_coreEq base hnd st hcore e he oracle true
    have hsub' : ∀ x ∈ rest, x ∈ base := fun x hx => hsub x (List.mem_cons_of_mem _ hx)
    rcases hwm : handleWriteMetadata st e.id oracle true with ⟨st1, res⟩
    rw [hwm] at hcore1 hres
    simp only at hcore1
    simp only [writeAllLoop, hwm]
    cases horacle : oracle e.id with
    | ok b =>
      rw [horacle] at hres
      simp only at hres
      subst hres
      obtain ⟨c1, c2, c3⟩ :=
        ih (zipFile zip (getDownloadName e.file) b) st1 hcore1 hsub'
      refine ⟨c1, ?_, ?_⟩
      · simp only [List.filter_cons, horacle, WriteReply.isOk_ok, if_pos, List.map_cons,
          zipAddAll]
        simpa [horacle] using c2
      · simp [c3, List.countP_cons, horacle]
    | httpError m =>
      rw [horacle] at hres
      simp only at hres
      subst hres
      obtain ⟨c1, c2, c3⟩ := ih zip st1 hcore1 hsub'
      refine ⟨c1, ?_, ?_⟩
      · simp [List.filter_cons, horacle, c2]
      · simp [c3, List.countP_cons, horacle]
    | thrown m =>
      rw [horacle] at hres
      simp only at hres
      subst hres
      obtain ⟨c1, c2, c3⟩ := ih zip st1 hcore1 hsub'
      refine ⟨c1, ?_, ?_⟩
      · simp [List.filter_cons, horacle, c2]
      · simp [c3, List.countP_cons, horacle]

theorem handleWriteAll_char (s : AppState) (oracle : String → WriteReply)
    (hne : s.fileEntries ≠ [])
    (hids : (s.fileEntries.map FileEntry.id).Nodup) :
    (handleWriteAll s oracle).2 =
      (if s.fileEntries.countP (fun e => (oracle e.id).isOk) = 0 then none
       else some (zipAddAll [] ((s.fileEntries.filter (fun e => (oracle e.id).isOk)).map
          (fun e => (getDownloadName e.file, (oracle e.id).blobD))))) ∧
    (handleWriteAll s oracle).1.bulkStatus =
      (if s.fileEntries.countP (fun e => (oracle e.id).isOk) = 0 then
        StatusState.error allFailedMsg
       else if s.fileEntries.countP (fun e => (oracle e.id).isOk) = s.fileEntries.length then
        StatusState.success (allZippedMsg (s.fileEntries.countP (fun e => (oracle e.id).isOk)))
       else
        StatusState.error (someFailedMsg (s.fileEntries.length -
          s.fileEntries.countP (fun e => (oracle e.id).isOk)))) := by
  have hlen : ¬ s.fileEntries.length = 0 := by
    intro h; exact hne (List.length_eq_zero.1 h)
  obtain ⟨c1, c2, c3⟩ := writeAllLoop_spec oracle s.fileEntries hids s.fileEntries []
    { s with bulkStatus := .loading bulkLoadingMsg } rfl (fun _ h => h)
  by_cases hz : s.fileEntries.countP (fun e => (oracle e.id).isOk) = 0
  · constructor <;> simp [handleWriteAll, hlen, c3, hz, c2]
  · by_cases hall : s.fileEntries.countP (fun e => (oracle e.id).isOk) = s.fileEntries.length
    · constructor <;> simp [handleWriteAll, hlen, c3, hz, hall, c2]
    · constructor <;> simp [handleWriteAll, hlen, c3, hz, hall, c2]

theorem handleAskAI_merge (s : AppState) (body : GeminiApiResponse)
    (results : List (Option GeminiApiResult))
    (hne : s.fileEntries ≠ [])
    (hcap : s.fileEntries.length ≤ MAX_GEMINI_FILES)
    (hres : body.results = some results)
    (hrne : results ≠ [])
    (hmap : buildResultMap results ≠ []) :
    (handleAskAI s (.response true (some body))).fileEntries =
      s.fileEntries.map (mergeEntry (buildResultMap results)) ∧
    (handleAskAI s (.response true (some body))).aiStatus =
      (if 0 < (s.fileEntries.filter
          (fun e => (mapGet (buildResultMap results) e.id).isNone)).length then
        StatusState.error (missingSomeMsg ((s.fileEntries.filter
          (fun e => (mapGet (buildResultMap results) e.id).isNone)).length))
       else StatusState.success aiSuccessMsg) := by
  have h0 : ¬ s.fileEntries.length = 0 := fun h => hne (List.length_eq_zero.1 h)
  have h1 : ¬ MAX_GEMINI_FILES < s.fileEntries.length := not_lt.2 hcap
  have h2 : ¬ results.length = 0 := fun h => hrne (List.length_eq_zero.1 h)
  have h3 : ¬ (buildResultMap results).length = 0 := fun h => hmap (List.length_eq_zero.1 h)
  constructor <;>
    simp [handleAskAI, askAIProceed, h0, h1, hres, h2, h3,
      apply_ite AppState.fileEntries, apply_ite AppState.aiStatus]

theorem mergeEntry_of_none (rmap : List (String × GeminiApiResult)) (e : FileEntry)
    (h : mapGet rmap e.id = none) : mergeEntry rmap e = e := by
  simp [mergeEntry, h]

theorem mergeEntry_writeStatus_of_some (rmap : List (String × GeminiApiResult)) (e : FileEntry)
    (r : GeminiApiResult) (h : mapGet rmap e.id = some r) :
    (mergeEntry rmap e).writeStatus = initialStatus := by
  simp [mergeEntry, h]

theorem ne_empty_of_length_pos (s : String) (h : 0 < s.length) : s ≠ "" := by
  intro hs
  rw [hs] at h
  exact absurd h (by decide)

theorem joinSep_head_le (sep a : String) (rest : List String) :
    a.length ≤ (joinSep sep (a :: rest)).length := by
  cases rest with
  | nil => simp [joinSep]
  | cons b bs =>
    simp only [joinSep, String.length_append]
    omega

theorem joinSep_ne_empty (sep a : String) (rest : List String) (ha : a ≠ "") :
    joinSep sep (a :: rest) ≠ "" := by
  intro h
  have hle := joinSep_head_le sep a rest
  rw [h] at hle
  refine ha ?_
  have : a.length = 0 := by
    have : ("" : String).length = 0 := by decide
    omega
  cases a with
  | mk data =>
    cases data with
    | nil => rfl
    | cons c cs => simp [String.length] at this

theorem sanitizedClientTags_mem_ne_empty (ts : List (Option String)) :
    ∀ t ∈ sanitizedClientTags ts, t ≠ "" := by
  intro t ht
  have hp := List.of_mem_filter ht
  exact ne_empty_of_length_pos t (by exact_mod_cast of_decide_eq_true hp)

theorem mergeEntry_signature (rmap : List (String × GeminiApiResult)) (e : FileEntry) :
    (mergeEntry rmap e).signature = e.signature := by
  cases h : mapGet rmap e.id <;> simp [mergeEntry, h]

theorem mergeEntry_arr_tags (rmap : List (String × GeminiApiResult)) (e : FileEntry)
    (r : GeminiApiResult) (ts : List (Option String)) (h : mapGet rmap e.id = some r)
    (ht : r.tags = .arr ts) (hne : sanitizedClientTags ts ≠ []) :
    (mergeEntry rmap e).tags = joinSep ", " (sanitizedClientTags ts) := by
  have hpos : 0 < (sanitizedClientTags ts).length := List.length_pos.2 hne
  simp [mergeEntry, h, ht, hpos]

theorem mergeEntry_title_policy (rmap : List (String × GeminiApiResult)) (e : FileEntry)
    (r : GeminiApiResult) (h : mapGet rmap e.id = some r) :
    ((mergeEntry rmap e).title ≠ e.title →
      ∃ t, r.title = some t ∧ jsTrim t ≠ "" ∧ (mergeEntry rmap e).title = jsTrim t) ∧
    (e.title ≠ "" → (mergeEntry rmap e).title ≠ "") := by
  cases htitle : r.title with
  | none =>
    constructor
    · intro hne
      exact absurd (by simp [mergeEntry, h, htitle]) hne
    · intro _
      simpa [mergeEntry, h, htitle] using ‹e.title ≠ ""›
  | some t =>
    by_cases hp : 0 < (jsTrim t).length
    · constructor
      · intro _
        exact ⟨t, rfl, ne_empty_of_length_pos _ hp, by simp [mergeEntry, h, htitle, hp]⟩
      · intro _
        have : (mergeEntry rmap e).title = jsTrim t := by simp [mergeEntry, h, htitle, hp]
        rw [this]
        exact ne_empty_of_length_pos _ hp
    · constructor
      · intro hne
        exact absurd (by simp [mergeEntry, h, htitle, hp]) hne
      · intro he
        simpa [mergeEntry, h, htitle, hp] using he

theorem mergeEntry_tags_policy (rmap : List (String × GeminiApiResult)) (e : FileEntry)
    (r : GeminiApiResult) (h : mapGet rmap e.id = some r) :
    ((mergeEntry rmap e).tags ≠ e.tags →
      (∃ ts, r.tags = .arr ts ∧ sanitizedClientTags ts ≠ [] ∧
        (mergeEntry rmap e).tags = joinSep ", " (sanitizedClientTags ts)) ∨
      (∃ str, r.tags = .str str ∧ jsTrim str ≠ "" ∧ (mergeEntry rmap e).tags = str)) ∧
    (e.tags ≠ "" → (mergeEntry rmap e).tags ≠ "") := by
  cases htags : r.tags with
  | missing =>
    constructor
    · intro hne
      exact absurd (by simp [mergeEntry, h, htags]) hne
    · intro he
      simpa [mergeEntry, h, htags] using he
  | arr ts =>
    by_cases hp : 0 < (sanitizedClientTags ts).length
    · have hne : sanitizedClientTags ts ≠ [] := List.length_pos.1 hp
      have htg : (mergeEntry rmap e).tags = joinSep ", " (sanitizedClientTags ts) := by
        simp [mergeEntry, h, htags, hp]
      constructor
      · intro _
        exact Or.inl ⟨ts, rfl, hne, htg⟩
      · intro _
        rw [htg]
        obtain ⟨a, rest, hcons⟩ : ∃ a rest, sanitizedClientTags ts = a :: rest := by
          cases hc : sanitizedClientTags ts with
          | nil => exact absurd hc hne
          | cons a rest => exact ⟨a, rest, rfl⟩
        rw [hcons]
        exact joinSep_ne_empty _ _ _
          (sanitizedClientTags_mem_ne_empty ts a (hcons ▸ List.mem_cons_self a rest))
    · constructor
      · intro hne
        exact absurd (by simp [mergeEntry, h, htags, hp]) hne
      · intro he
        simpa [mergeEntry, h, htags, hp] using he
  | str str =>
    by_cases hp : 0 < (jsTrim str).length
    · have htg : (mergeEntry rmap e).tags = str := by simp [mergeEntry, h, htags, hp]
      constructor
      · intro _
        exact Or.inr ⟨str, rfl, ne_empty_of_length_pos _ hp, htg⟩
      · intro _
        rw [htg]
        intro hstr
        rw [hstr] at hp
        have : jsTrim "" = "" := by decide
        rw [this] at hp
        exact absurd hp (by decide)
    · constructor
      · intro hne
        exact absurd (by simp [mergeEntry, h, htags, hp]) hne
      · intro he
        simpa [mergeEntry, h, htags, hp] using he

theorem sanitizeItem_tags_normalized (r : RawResult) (out : GeminiResult)
    (h : sanitizeItem r = some out) :
    out.tags = specNormalizeTags (rawTagList r.tags) := by
  simp only [sanitizeItem] at h
  split at h
  · exact absurd h (by simp)
  · cases htags : r.tags with
    | missing =>
      rw [htags] at h
      simp at h
    | arr ts =>
      rw [htags] at h
      split at h
      · exact absurd h (by simp)
      · injection h with h
        rw [← h]
        simp only [specNormalizeTags, rawTagList, List.map_map]
        congr 1
        congr 1
        refine List.map_congr_left fun t _ => ?_
        cases t with
        | some s => rfl
        | none => decide
    | str s =>
      rw [htags] at h
      split at h
      · exact absurd h (by simp)
      · injection h with h
        rw [← h]
        rfl

theorem updateEntry_sigs (s : AppState) (id0 : String) (f : FileEntry → FileEntry)
    (hf : ∀ e, (f e).signature = e.signature) :
    (updateEntry s id0 f).fileEntries.map FileEntry.signature =
      s.fileEntries.map FileEntry.signature := by
  simp only [updateEntry, List.map_map]
  refine List.map_congr_left fun a _ => ?_
  by_cases h : a.id = id0 <;> simp [h, hf]

theorem handleRemoveEntry_sublist (s : AppState) (entryId : String) :
    (handleRemoveEntry s entryId).fileEntries.Sublist s.fileEntries := by
  unfold handleRemoveEntry
  split
  · exact List.nil_sublist _
  · split
    · exact List.Sublist.refl _
    · dsimp only
      split
      · exact List.filter_sublist _
      · exact List.filter_sublist _

theorem handleAskAI_entries_cases (s : AppState) (o : FetchOutcome) :
    (handleAskAI s o).fileEntries = s.fileEntries ∨
    ∃ rmap, (handleAskAI s o).fileEntries = s.fileEntries.map (mergeEntry rmap) := by
  unfold handleAskAI
  split
  · left; rfl
  · split
    · left; rfl
    · unfold askAIProceed
      cases o with
      | netError => left; rfl
      | response ok body =>
        dsimp only
        split
        · left; rfl
        · split
          · left; rfl
          · split
            · left; rfl
            · right
              exact ⟨_, rfl⟩

theorem handleWriteMetadata_sigs (s : AppState) (entryId : String)
    (oracle : String → WriteReply) (skip : Bool) :
    (handleWriteMetadata s entryId oracle skip).1.fileEntries.map FileEntry.signature =
      s.fileEntries.map FileEntry.signature := by
  unfold handleWriteMetadata
  cases hf : s.fileEntries.find? (fun e => e.id == entryId) with
  | none => rfl
  | some entry =>
    cases horacle : oracle entryId <;>
      simp only [] <;>
      rw [updateEntry_sigs, updateEntry_sigs] <;>
      intro e <;> rfl

theorem writeAllLoop_sigs (oracle : String → WriteReply) :
    ∀ (todo : List FileEntry) (zip : List (String × String)) (st : AppState),
      (writeAllLoop oracle st zip todo).1.fileEntries.map FileEntry.signature =
        st.fileEntries.map FileEntry.signature := by
  intro todo
  induction todo with
  | nil => intro zip st; rfl
  | cons e rest ih =>
    intro zip st
    have hs := handleWriteMetadata_sigs st e.id oracle true
    rcases hwm : handleWriteMetadata st e.id oracle true with ⟨st1, res⟩
    rw [hwm] at hs
    simp only at hs
    simp only [writeAllLoop, hwm]
    cases res with
    | none => rw [ih zip st1, hs]
    | some file => rw [ih (zipFile zip file.1 file.2) st1, hs]

theorem handleWriteAll_sigs (s : AppState) (oracle : String → WriteReply) :
    (handleWriteAll s oracle).1.fileEntries.map FileEntry.signature =
      s.fileEntries.map FileEntry.signature := by
  unfold handleWriteAll
  split
  · rfl
  · have h := writeAllLoop_sigs oracle s.fileEntries []
      { s with bulkStatus := .loading bulkLoadingMsg }
    dsimp only
    split
    · exact h
    · split
      · exact h
      · exact h

theorem length_eq_of_sigs_eq {l1 l2 : List FileEntry}
    (h : l1.map FileEntry.signature = l2.map FileEntry.signature) : l1.length = l2.length := by
  have := congrArg List.length h
  simpa using this

theorem map_sig_map_mergeEntry (rmap : List (String × GeminiApiResult)) (l : List FileEntry) :
    (l.map (mergeEntry rmap)).map FileEntry.signature = l.map FileEntry.signature := by
  rw [List.map_map]
  exact List.map_congr_left fun e _ => mergeEntry_signature rmap e

theorem step_preserves_inv (s : AppState) (op : AppOp)
    (hnd : (s.fileEntries.map FileEntry.signature).Nodup)
    (hlen : s.fileEntries.length ≤ MAX_GEMINI_FILES) :
    ((step s op).fileEntries.map FileEntry.signature).Nodup ∧
      (step s op).fileEntries.length ≤ MAX_GEMINI_FILES := by
  cases op with
  | select files =>
    exact ⟨handleFileChange_sigs_nodup s files hnd, handleFileChange_capacity s files hlen⟩
  | editTitle id v =>
    have h : (step s (.editTitle id v)).fileEntries.map FileEntry.signature =
        s.fileEntries.map FileEntry.signature :=
      updateEntry_sigs s id _ (fun e => rfl)
    exact ⟨h ▸ hnd, (length_eq_of_sigs_eq h) ▸ hlen⟩
  | editTags id v =>
    have h : (step s (.editTags id v)).fileEntries.map FileEntry.signature =
        s.fileEntries.map FileEntry.signature :=
      updateEntry_sigs s id _ (fun e => rfl)
    exact ⟨h ▸ hnd, (length_eq_of_sigs_eq h) ▸ hlen⟩
  | remove id =>
    have hsub := (handleRemoveEntry_sublist s id).map FileEntry.signature
    exact ⟨hnd.sublist hsub, le_trans (handleRemoveEntry_sublist s id).length_le hlen⟩
  | askAI o =>
    rcases handleAskAI_entries_cases s o with heq | ⟨rmap, heq⟩
    · have h : (step s (.askAI o)).fileEntries.map FileEntry.signature =
          s.fileEntries.map FileEntry.signature := by rw [show (step s (.askAI o)).fileEntries = s.fileEntries from heq]
      exact ⟨h ▸ hnd, (length_eq_of_sigs_eq h) ▸ hlen⟩
    · have h : (step s (.askAI o)).fileEntries.map FileEntry.signature =
          s.fileEntries.map FileEntry.signature := by
        rw [show (step s (.askAI o)).fileEntries = s.fileEntries.map (mergeEntry rmap) from heq]
        exact map_sig_map_mergeEntry rmap s.fileEntries
      exact ⟨h ▸ hnd, (length_eq_of_sigs_eq h) ▸ hlen⟩
  | writeOne id oracle =>
    have h : (step s (.writeOne id oracle)).fileEntries.map FileEntry.signature =
        s.fileEntries.map FileEntry.signature := handleWriteMetadata_sigs s id oracle false
    exact ⟨h ▸ hnd, (length_eq_of_sigs_eq h) ▸ hlen⟩
  | writeAll oracle =>
    have h : (step s (.writeAll oracle)).fileEntries.map FileEntry.signature =
        s.fileEntries.map FileEntry.signature := handleWriteAll_sigs s oracle
    exact ⟨h ▸ hnd, (length_eq_of_sigs_eq h) ▸ hlen⟩

theorem foldl_step_inv (ops : List AppOp) :
    ∀ (s : AppState), (s.fileEntries.map FileEntry.signature).Nodup →
      s.fileEntries.length ≤ MAX_GEMINI_FILES →
      ((ops.foldl step s).fileEntries.map FileEntry.signature).Nodup ∧
        (ops.foldl step s).fileEntries.length ≤ MAX_GEMINI_FILES := by
  induction ops with
  | nil => intro s h1 h2; exact ⟨h1, h2⟩
  | cons op rest ih =>
    intro s h1 h2
    obtain ⟨h1', h2'⟩ := step_preserves_inv s op h1 h2
    exact ih (step s op) h1' h2'

theorem runOps_inv (ops : List AppOp) :
    ((runOps ops).fileEntries.map FileEntry.signature).Nodup ∧
      (runOps ops).fileEntries.length ≤ MAX_GEMINI_FILES := by
  exact foldl_step_inv ops initialState (by simp [initialState]) (by simp [initialState])

theorem foldl_select_cap (sels : List (List FileMeta)) :
    ∀ (s : AppState), s.fileEntries.length ≤ MAX_GEMINI_FILES →
      (sels.foldl handleFileChange s).fileEntries.length ≤ MAX_GEMINI_FILES := by
  induction sels with
  | nil => intro s h; exact h
  | cons files rest ih =>
    intro s h
    exact ih (handleFileChange s files) (handleFileChange_capacity s files h)

/-- C1: for every sequence of file selections starting from the empty store
the entry store never exceeds the capacity `MAX_GEMINI_FILES = 50`, and any
single selection grows the store by at most the remaining free slots. -/
theorem selection_capacity_invariant (sels : List (List FileMeta)) (s : AppState)
    (files : List FileMeta) :
    (sels.foldl handleFileChange initialState).fileEntries.length ≤ MAX_GEMINI_FILES ∧
    (handleFileChange s files).fileEntries.length ≤
      s.fileEntries.length + (MAX_GEMINI_FILES - s.fileEntries.length) := by
  constructor
  · exact foldl_select_cap sels initialState (by simp [initialState])
  · have := handleFileChange_length_le s files
    omega

/-- C2: after every sequence of operations (selections, edits, removals,
annotation merges, writes) the signatures of the stored entries are
pairwise distinct, so a duplicate signature — whether presented in a later
selection or within the same batch — is never admitted twice. -/
theorem signatures_unique_invariant (ops : List AppOp) :
    ((runOps ops).fileEntries.map FileEntry.signature).Nodup :=
  (runOps_inv ops).1

/-- C9 (amended): a single selection admits at most
`min (files selected) (C - current)` entries — i.e. at most the remaining
free slots — rather than the claimed `min (k, C - current)` for `C + k`
selected files. -/
theorem selection_admits_at_most_free_slots (s : AppState) (files : List FileMeta) :
    (handleFileChange s files).fileEntries.length ≤
      s.fileEntries.length + min files.length (MAX_GEMINI_FILES - s.fileEntries.length) :=
  handleFileChange_length_le s files

/-- C9 counterexample: with an empty store, selecting `C + 1 = 51`
supported, pairwise distinct, not-yet-stored files admits 50 entries,
which exceeds the claimed bound `min (k, C - current) = min 1 50 = 1`. -/
theorem selection_overflow_counterexample :
    overflowFiles.length = MAX_GEMINI_FILES + 1 ∧
    (handleFileChange initialState overflowFiles).fileEntries.length = MAX_GEMINI_FILES ∧
    ¬((handleFileChange initialState overflowFiles).fileEntries.length ≤
        min 1 (MAX_GEMINI_FILES - initialState.fileEntries.length)) := by decide

/-- C10: in every reachable state with at least one entry, the annotate
handler passes its over-batch-limit validation (store capacity and provider
batch limit are the same `MAX_GEMINI_FILES = 50` constant) and proceeds to
issue the request; the local over-limit error branch is unreachable. -/
theorem askAI_over_limit_unreachable (ops : List AppOp) (o : FetchOutcome)
    (h : (runOps ops).fileEntries ≠ []) :
    handleAskAI (runOps ops) o = askAIProceed (runOps ops) o := by
  have hlen := (runOps_inv ops).2
  have hne : ¬ (runOps ops).fileEntries.length = 0 := fun hl => h (List.length_eq_zero.1 hl)
  have hcap : ¬ MAX_GEMINI_FILES < (runOps ops).fileEntries.length := not_lt.2 hlen
  simp [handleAskAI, hne, hcap]

/-- Witness for C10 at a concrete reachable one-entry state. -/
theorem askAI_over_limit_unreachable_witness :
    handleAskAI (runOps sampleOps) FetchOutcome.netError =
      askAIProceed (runOps sampleOps) FetchOutcome.netError :=
  askAI_over_limit_unreachable sampleOps FetchOutcome.netError (by decide)

/-- C4 counterexample: an annotation response matching one of two entries
sets the aggregate AI status to the error-typed missing-count message —
not to a success — even though the match for id `"a"` is applied. -/
theorem ai_missing_coverage_counterexample :
    (handleAskAI sMiss missOutcome).aiStatus = StatusState.error (missingSomeMsg 1) ∧
    StatusState.isSuccess (handleAskAI sMiss missOutcome).aiStatus = false ∧
    (handleAskAI sMiss missOutcome).fileEntries.map FileEntry.title = ["T", "t0"] := by decide

/-- C4 (amended): when the annotation response matches some but not all
entries, the aggregate AI status becomes the error-typed message carrying
the count of missing entries (not a success status, and not a hard error
that discards work), while the matches that did land are applied to their
entries through the merge. -/
theorem ai_missing_coverage_applies_matches (s : AppState) (body : GeminiApiResponse)
    (results : List (Option GeminiApiResult))
    (hne : s.fileEntries ≠ [])
    (hcap : s.fileEntries.length ≤ MAX_GEMINI_FILES)
    (hres : body.results = some results)
    (hrne : results ≠ [])
    (hmap : buildResultMap results ≠ [])
    (hmiss : 0 < (s.fileEntries.filter
        (fun e => (mapGet (buildResultMap results) e.id).isNone)).length) :
    (handleAskAI s (.response true (some body))).aiStatus =
      StatusState.error (missingSomeMsg ((s.fileEntries.filter
        (fun e => (mapGet (buildResultMap results) e.id).isNone)).length)) ∧
    (handleAskAI s (.response true (some body))).fileEntries =
      s.fileEntries.map (mergeEntry (buildResultMap results)) := by
  obtain ⟨h1, h2⟩ := handleAskAI_merge s body results hne hcap hres hrne hmap
  refine ⟨?_, h1⟩
  rw [h2, if_pos hmiss]

/-- Witness for C4 at the concrete two-entry state. -/
theorem ai_missing_coverage_applies_matches_witness :
    (handleAskAI sMiss missOutcome).aiStatus =
      StatusState.error (missingSomeMsg ((sMiss.fileEntries.filter
        (fun e => (mapGet (buildResultMap [some resultForA]) e.id).isNone)).length)) ∧
    (handleAskAI sMiss missOutcome).fileEntries =
      sMiss.fileEntries.map (mergeEntry (buildResultMap [some resultForA])) :=
  ai_missing_coverage_applies_matches sMiss missBody [some resultForA]
    (by decide) (by decide) rfl (by decide) (by decide) (by decide)

/-- C5 counterexample: after a merge in which no result matches entry
`"b"`, that entry keeps its previous `success` write status instead of
being reset to idle. -/
theorem merge_untouched_keeps_status_counterexample :
    (handleAskAI sMiss missOutcome).fileEntries.map FileEntry.writeStatus =
      [StatusState.idle, StatusState.success "done"] ∧
    StatusState.success "done" ≠ StatusState.idle := by decide

/-- C5 (amended): after an annotation merge, every entry merged with a
matching result has its write status reset to idle, while entries with no
matching result are left entirely unchanged — including their previous
write status. -/
theorem merge_write_status_policy (s : AppState) (body : GeminiApiResponse)
    (results : List (Option GeminiApiResult))
    (hne : s.fileEntries ≠ [])
    (hcap : s.fileEntries.length ≤ MAX_GEMINI_FILES)
    (hres : body.results = some results)
    (hrne : results ≠ [])
    (hmap : buildResultMap results ≠ []) :
    (handleAskAI s (.response true (some body))).fileEntries =
      s.fileEntries.map (mergeEntry (buildResultMap results)) ∧
    ∀ e ∈ s.fileEntries,
      (∀ r, mapGet (buildResultMap results) e.id = some r →
        (mergeEntry (buildResultMap results) e).writeStatus = initialStatus) ∧
      (mapGet (buildResultMap results) e.id = none →
        mergeEntry (buildResultMap results) e = e) := by
  obtain ⟨h1, _⟩ := handleAskAI_merge s body results hne hcap hres hrne hmap
  exact ⟨h1, fun e _ =>
    ⟨fun r hr => mergeEntry_writeStatus_of_some _ e r hr,
     fun hn => mergeEntry_of_none _ e hn⟩⟩

/-- Witness for C5: the matched entry is reset, the unmatched entry is
returned unchanged. -/
theorem merge_write_status_policy_witness :
    (handleAskAI sMiss missOutcome).fileEntries =
      sMiss.fileEntries.map (mergeEntry (buildResultMap [some resultForA])) ∧
    mergeEntry (buildResultMap [some resultForA]) entryBdone = entryBdone := by
  have h := merge_write_status_policy sMiss missBody [some resultForA]
    (by decide) (by decide) rfl (by decide) (by decide)
  exact ⟨h.1, (h.2 entryBdone (by decide)).2 (by decide)⟩

/-- C7 (amended): an annotation merge is a no-op for an entry with no
matching result; the title is replaced only by a non-empty trimmed result
title; list-form tags are replaced only when client sanitization leaves at
least one non-empty tag (joined for display); string-form tags are replaced
verbatim exactly when their trim is non-empty — and a merge never
overwrites an existing non-empty title or tags with an empty value. -/
theorem merge_policy (rmap : List (String × GeminiApiResult)) (e : FileEntry) :
    (mapGet rmap e.id = none → mergeEntry rmap e = e) ∧
    (∀ r, mapGet rmap e.id = some r →
      ((mergeEntry rmap e).title ≠ e.title →
        ∃ t, r.title = some t ∧ jsTrim t ≠ "" ∧ (mergeEntry rmap e).title = jsTrim t) ∧
      ((mergeEntry rmap e).tags ≠ e.tags →
        (∃ ts, r.tags = .arr ts ∧ sanitizedClientTags ts ≠ [] ∧
          (mergeEntry rmap e).tags = joinSep ", " (sanitizedClientTags ts)) ∨
        (∃ str, r.tags = .str str ∧ jsTrim str ≠ "" ∧ (mergeEntry rmap e).tags = str)) ∧
      (e.title ≠ "" → (mergeEntry rmap e).title ≠ "") ∧
      (e.tags ≠ "" → (mergeEntry rmap e).tags ≠ "")) := by
  refine ⟨mergeEntry_of_none rmap e, fun r hr => ?_⟩
  obtain ⟨ht1, ht2⟩ := mergeEntry_title_policy rmap e r hr
  obtain ⟨hg1, hg2⟩ := mergeEntry_tags_policy rmap e r hr
  exact ⟨ht1, hg1, ht2, hg2⟩

/-- C7 counterexample: a string-form tags value of `",,"` replaces the
existing tags of the entry although normalization (split, trim, drop
empties) of that string yields no tag at all. -/
theorem merge_tags_normalization_counterexample :
    entryOld.tags = "oldtags" ∧
    (mergeEntry [("a", strTagResult)] entryOld).tags = ",," ∧
    specNormalizeTags (rawTagList strTagResult.tags) = [] ∧
    (",," : String) ≠ "oldtags" := by decide

/-- Witness for C7 at a concrete entry and result map. -/
theorem merge_policy_witness :
    (mergeEntry [("a", strTagResult)] entryOld).tags ≠ "" ∧
    (mergeEntry [("a", strTagResult)] entryOld).title ≠ "" := by
  have h := (merge_policy [("a", strTagResult)] entryOld).2 strTagResult (by decide)
  exact ⟨h.2.2.2 (by decide), h.2.2.1 (by decide)⟩

/-- C6: whether a result's tags arrive as a list of strings or as a single
delimited string, the route's sanitizer produces the same normalization —
each tag trimmed, empty tags dropped, capped at `MAX_TAGS` — of the
arrival-form tag list, and the client merge joins the sanitized list into
the comma-separated display string. -/
theorem tags_normalization_uniform :
    (∀ (r : RawResult) (out : GeminiResult), sanitizeItem r = some out →
      out.tags = specNormalizeTags (rawTagList r.tags)) ∧
    (∀ (rmap : List (String × GeminiApiResult)) (e : FileEntry) (r : GeminiApiResult)
        (ts : List (Option String)), mapGet rmap e.id = some r → r.tags = .arr ts →
        sanitizedClientTags ts ≠ [] →
        (mergeEntry rmap e).tags = joinSep ", " (sanitizedClientTags ts)) :=
  ⟨sanitizeItem_tags_normalized, mergeEntry_arr_tags⟩

/-- Witness for C6: a delimited-string arrival normalizes to the same list
as its split form, and a concrete array-form merge joins the sanitized
tags. -/
theorem tags_normalization_uniform_witness :
    ({ id := "i", title := "t", tags := ["a", "b"] } : GeminiResult).tags =
      specNormalizeTags (rawTagList strFormRaw.tags) ∧
    (mergeEntry [("a", arrTagResult)] entryPlain).tags =
      joinSep ", " (sanitizedClientTags [some " x ", none, some "y"]) := by
  constructor
  · exact tags_normalization_uniform.1 strFormRaw _ (by decide)
  · exact tags_normalization_uniform.2 [("a", arrTagResult)] entryPlain arrTagResult
      [some " x ", none, some "y"] (by decide) (by decide) (by decide)

/-- C8: editing an entry's title or tags updates exactly the entries with
the edited id, resetting their write status to idle regardless of its
previous value, and leaves every other entry unchanged. -/
theorem edit_resets_write_status (s : AppState) (entryId value : String) (i : Nat) :
    ((handleTitleChange s entryId value).fileEntries[i]? =
      (s.fileEntries[i]?).map (fun e =>
        if e.id = entryId then { e with title := value, writeStatus := initialStatus }
        else e)) ∧
    ((handleTagsChange s entryId value).fileEntries[i]? =
      (s.fileEntries[i]?).map (fun e =>
        if e.id = entryId then { e with tags := value, writeStatus := initialStatus }
        else e)) := by
  constructor
  · simp only [handleTitleChange, updateEntry, List.getElem?_map]
    cases s.fileEntries[i]? with
    | none => rfl
    | some e => by_cases h : e.id = entryId <;> simp [h]
  · simp only [handleTagsChange, updateEntry, List.getElem?_map]
    cases s.fileEntries[i]? with
    | none => rfl
    | some e => by_cases h : e.id = entryId <;> simp [h]

/-- C3 counterexample: three entries, the first two of which are distinct
files sharing the download name `a-iptc.jpg`; both of their writes succeed
(`M = 2`, `N = 3`) but the name-keyed ZIP container holds a single file —
the later artifact replaced the earlier one — so the archive does not
contain exactly `M` files as claimed. -/
theorem writeAll_archive_collision_counterexample :
    sCollide.fileEntries.length = 3 ∧
    sCollide.fileEntries.countP (fun e => (collideOracle e.id).isOk) = 2 ∧
    (handleWriteAll sCollide collideOracle).2 = some [("a-iptc.jpg", "B2")] ∧
    ([("a-iptc.jpg", "B2")] : List (String × String)).length ≠
      sCollide.fileEntries.countP (fun e => (collideOracle e.id).isOk) := by decide

/-- C3 (amended): in a batch pass over a non-empty store (with the freshly
generated ids pairwise distinct), if no write succeeds then no archive is
produced and the bulk status is the total-failure error; if `0 < M < N`
writes succeed then the archive is the name-keyed ZIP container fed the `M`
successful artifacts in store order under their computed download names — a
later artifact replaces an earlier one with the same name, so the archive
holds exactly one file per distinct download name among the successes
(never more than `M`, and exactly the `M` artifacts when their names are
pairwise distinct) — and the bulk status is the error message reporting
`N - M` failures. -/
theorem writeAll_outcome (s : AppState) (oracle : String → WriteReply)
    (hne : s.fileEntries ≠ [])
    (hids : (s.fileEntries.map FileEntry.id).Nodup) :
    (s.fileEntries.countP (fun e => (oracle e.id).isOk) = 0 →
      (handleWriteAll s oracle).2 = none ∧
      (handleWriteAll s oracle).1.bulkStatus = StatusState.error allFailedMsg) ∧
    (0 < s.fileEntries.countP (fun e => (oracle e.id).isOk) →
      s.fileEntries.countP (fun e => (oracle e.id).isOk) < s.fileEntries.length →
      (handleWriteAll s oracle).2 = some (zipAddAll [] (successArtifacts s oracle)) ∧
      (successArtifacts s oracle).length =
        s.fileEntries.countP (fun e => (oracle e.id).isOk) ∧
      ((zipAddAll [] (successArtifacts s oracle)).map Prod.fst).Nodup ∧
      (∀ n, n ∈ (zipAddAll [] (successArtifacts s oracle)).map Prod.fst ↔
        n ∈ (successArtifacts s oracle).map Prod.fst) ∧
      (zipAddAll [] (successArtifacts s oracle)).length ≤
        s.fileEntries.countP (fun e => (oracle e.id).isOk) ∧
      (((successArtifacts s oracle).map Prod.fst).Nodup →
        zipAddAll [] (successArtifacts s oracle) = successArtifacts s oracle) ∧
      (handleWriteAll s oracle).1.bulkStatus =
        StatusState.error (someFailedMsg (s.fileEntries.length -
          s.fileEntries.countP (fun e => (oracle e.id).isOk)))) := by
  obtain ⟨h1, h2⟩ := handleWriteAll_char s oracle hne hids
  constructor
  · intro hz
    rw [h1, h2, if_pos hz, if_pos hz]
    exact ⟨rfl, rfl⟩
  · intro hpos hlt
    have hz : ¬ s.fileEntries.countP (fun e => (oracle e.id).isOk) = 0 := by omega
    have hall : ¬ s.fileEntries.countP (fun e => (oracle e.id).isOk) =
        s.fileEntries.length := by omega
    have hplen : (successArtifacts s oracle).length =
        s.fileEntries.countP (fun e => (oracle e.id).isOk) := by
      rw [successArtifacts, List.length_map]
      exact (List.countP_eq_length_filter _ _).symm
    rw [h1, h2, if_neg hz, if_neg hz, if_neg hall]
    refine ⟨rfl, hplen, ?_, ?_, ?_, ?_, rfl⟩
    · exact zipAddAll_names_nodup (successArtifacts s oracle) [] (by simp)
    · intro n
      rw [zipAddAll_mem_names]
      simp
    · have h := zipAddAll_length_le (successArtifacts s oracle) []
      simp only [List.length_nil, Nat.zero_add] at h
      omega
    · intro hnd
      have h := zipAddAll_of_nodup (successArtifacts s oracle) [] hnd (by simp)
      simpa using h

/-- Witness for C3: one of two entries (with distinct download names)
succeeds; the archive holds exactly that artifact under its computed name
and the bulk status reports one failure. -/
theorem writeAll_outcome_witness :
    (handleWriteAll sBatch batchOracle).2 = some [("x-iptc.jpg", "BLOB")] ∧
    zipAddAll [] (successArtifacts sBatch batchOracle) =
      successArtifacts sBatch batchOracle ∧
    (handleWriteAll sBatch batchOracle).1.bulkStatus =
      StatusState.error (someFailedMsg 1) := by
  have h := (writeAll_outcome sBatch batchOracle (by decide) (by decide)).2
    (by decide) (by decide)
  refine ⟨?_, h.2.2.2.2.2.1 (by decide), ?_⟩
  · rw [h.1]; decide
  · exact h.2.2.2.2.2.2.trans (by decide)
